import Mathlib

/-
Verification of the source-position-addressable patch engine of the
poc-visual-editor repository (vite-inline-edit-plugin).

The JavaScript strings of the plugin are modelled as lists of characters,
file storage as an association list from absolute paths to parsed syntax
trees, and the Babel AST fragment the plugin manipulates (JSXOpeningElement,
JSXElement, JSXText, JSXAttribute) as a nested inductive tree.  Every
definition below is translated from the plugin source; the source file and
line numbers are cited at each definition.
-/

namespace PocEdit

/-- JavaScript strings are modelled as lists of UTF-16-like code units. -/
abbrev Str := List Char

/-- JS s.split(sep) for a single-character separator: splitting the empty
string yields one empty part, every separator occurrence starts a new part. -/
def splitOn (sep : Char) : Str → List Str
  | [] => [[]]
  | c :: rest =>
    if c = sep then [] :: splitOn sep rest
    else
      match splitOn sep rest with
      | [] => [[c]]
      | r :: rs => (c :: r) :: rs

/-- JS parts.join(sep) for a single-character separator. -/
def joinWith (sep : Char) : List Str → Str
  | [] => []
  | [x] => x
  | x :: xs => x ++ sep :: joinWith sep xs

/-- The whitespace characters that JS parseInt skips at the start of its
input (the common ASCII subset). -/
def isJsSpace (c : Char) : Bool :=
  c = ' ' || c = '\t' || c = '\n' || c = '\r' || c = '\x0b' || c = '\x0c'

/-- Numeric value of a digit string, most significant digit first. -/
def digitsVal (ds : Str) : Nat :=
  ds.foldl (fun a c => 10 * a + (c.toNat - 48)) 0

/-- Longest leading run of decimal digits, rejecting the input when there is
none: the digit-consuming core of JS parseInt(s, 10). -/
def leadingNat (s : Str) : Option Nat :=
  let ds := s.takeWhile Char.isDigit
  if ds = [] then none else some (digitsVal ds)

/-- JS parseInt(s, 10): skip leading whitespace, allow one sign, then read
the longest prefix of decimal digits; NaN (here: none) when no digit
follows.  Trailing non-digit characters are ignored. -/
def parseIntTen (s : Str) : Option Int :=
  let t := s.dropWhile isJsSpace
  match t with
  | [] => none
  | c :: rest =>
    if c = '-' then (leadingNat rest).map (fun n => -(n : Int))
    else if c = '+' then (leadingNat rest).map (fun n => (n : Int))
    else (leadingNat (c :: rest)).map (fun n => (n : Int))

/-- The decimal digit characters. -/
def digitChar : Nat → Char
  | 0 => '0'
  | 1 => '1'
  | 2 => '2'
  | 3 => '3'
  | 4 => '4'
  | 5 => '5'
  | 6 => '6'
  | 7 => '7'
  | 8 => '8'
  | 9 => '9'
  | _ => '?'

/-- Fuel-driven decimal rendering helper (the fuel bounds the digit count so
the recursion is structural and evaluates inside the kernel). -/
def natDigitsAux : Nat → Nat → Str
  | 0, _ => []
  | fuel + 1, n =>
    if n < 10 then [digitChar n]
    else natDigitsAux fuel (n / 10) ++ [digitChar (n % 10)]

/-- Decimal rendering of a natural number, as JS template interpolation of a
non-negative integer produces it. -/
def natDigits (n : Nat) : Str := natDigitsAux (n + 1) n

/-- The decoded form of a location identifier, as built by parseEditId
(vite-inline-edit-plugin, src/unnamed/part_000 line 32). -/
structure ParsedId where
  filePath : Str
  line : Int
  column : Int
deriving DecidableEq

/-- parseEditId from src/unnamed/part_000 lines 16-33: split the identifier
on colons, require at least three parts, pop the last part as the column
string and the next as the line string, rejoin the remainder with colons as
the file path, parse both numbers with parseInt(s, 10), and reject when the
path is empty or either parse gives NaN. -/
def parseEditId (editId : Str) : Option ParsedId :=
  let parts := splitOn ':' editId
  if parts.length < 3 then none
  else
    match parts.reverse with
    | columnStr :: lineStr :: restRev =>
      let filePath := joinWith ':' restRev.reverse
      match parseIntTen lineStr, parseIntTen columnStr with
      | some line, some column =>
        if filePath = [] then none else some ⟨filePath, line, column⟩
      | _, _ => none
    | _ => none

/-- The encoding side of the codec: the colon join used when the stamping
pass builds an identifier (src/unnamed/part_000 line 71). -/
def encodeEditId (p : Str) (line column : Nat) : Str :=
  p ++ ':' :: natDigits line ++ ':' :: natDigits column

/-- JS hay.startsWith(needle): the first argument is the candidate starting
segment, the second the string being examined. -/
def strStarts (needle hay : Str) : Bool :=
  match needle, hay with
  | [], _ => true
  | _ :: _, [] => false
  | a :: as, b :: bs => a == b && strStarts as bs

/-- JS hay.includes(needle): substring containment at any offset. -/
def strHas (needle : Str) : Str → Bool
  | [] => strStarts needle []
  | c :: rest => strStarts needle (c :: rest) || strHas needle rest

/-- The two-dot substring the handler scans the decoded relative path for
(src/unnamed/part_000 line 132). -/
def dotdotStr : Str := ['.', '.']

/-- The directory name excluded by both the transform filter and the
apply-edit path check (src/unnamed/part_000 lines 40 and 132). -/
def nodeModulesStr : Str := "node_modules".toList

/-- One step of POSIX path normalization over a list of slash-separated
segments: empty and single-dot segments vanish, a parent segment removes the
segment before it (or nothing at the root), anything else is kept. -/
def normStep (acc : List Str) (s : Str) : List Str :=
  if s = [] || s = ['.'] then acc
  else if s = ['.', '.'] then acc.dropLast
  else acc ++ [s]

/-- Node path.resolve(root, p) for an absolute, already-normalized root: an
absolute p replaces the root, a relative p is appended, and the joined path
is normalized segment by segment. -/
def resolvePath (root p : Str) : Str :=
  let base := match p with
    | '/' :: _ => p
    | _ => root ++ '/' :: p
  '/' :: joinWith '/' ((splitOn '/' base).foldl normStep [])

/-- The apply-edit path rejection condition of src/unnamed/part_000 line
132: the decoded path contains a two-dot substring, or the resolved absolute
path does not start with the project root string, or the resolved path
contains the node_modules substring. -/
def pathRejects (root p : Str) : Bool :=
  strHas dotdotStr p || !(strStarts root (resolvePath root p)) ||
    strHas nodeModulesStr (resolvePath root p)

/-- Whether the path has a parent-directory segment between slashes: the
notion the specification uses for traversal rejection. -/
def hasParentSeg (p : Str) : Bool :=
  (splitOn '/' p).any (fun s => s == dotdotStr)

/-- Whether the path has a node_modules segment between slashes: the
specification notion of falling under a dependency directory. -/
def hasNodeModulesSeg (p : Str) : Bool :=
  (splitOn '/' p).any (fun s => s == nodeModulesStr)

/-- Whether abs lies at or below dir in the directory tree.  This is the
descendant notion of the specification (a path is inside the project root),
stated independently of the string-prefix test the handler actually runs. -/
def isDescendantPath (dir abs : Str) : Bool :=
  abs == dir || strStarts (dir ++ ['/']) abs

/-- A source position as Babel records it on node.loc.start: a 1-based line
and a 0-based column. -/
structure Loc where
  line : Nat
  column : Nat
deriving DecidableEq

/-- An attribute of a JSX opening element.  The stamping pass only inspects
plain JSXAttribute nodes with a name and a string value; spread attributes
are represented opaquely since t.isJSXAttribute rejects them. -/
inductive JSXAttr where
  | jsxAttribute (name : Str) (value : Str)
  | spreadAttribute
deriving DecidableEq

/-- A JSXOpeningElement: its recorded source location (Babel leaves loc
absent on synthetic nodes, hence the Option) and its attribute list. -/
structure JSXOpening where
  loc : Option Loc
  attributes : List JSXAttr
deriving DecidableEq

/-- A direct child of a JSXElement: either a JSXText literal or a nested
element (the node kinds the handler distinguishes with t.isJSXText; every
non-text child is traversed like an element and never mutated). -/
inductive JSXChild where
  | text (value : Str)
  | element (opening : JSXOpening) (children : List JSXChild)

/-- A parsed file is the list of JSX roots it contains, in source order. -/
abbrev Ast := List JSXChild

/-- The position test of the locate visitor (src/unnamed/part_000 line 150):
node.loc exists, its start line equals the target line, and its start column
plus one equals the target column. -/
def matchesLoc (targetLine targetColumn : Int) (op : JSXOpening) : Bool :=
  match op.loc with
  | some l => ((l.line : Int) == targetLine) && ((l.column : Int) + 1 == targetColumn)
  | none => false

mutual
/-- Depth-first search for the first JSXOpeningElement matching the target
position, returning the enclosing element (its opening and children): the
JSXOpeningElement visitor with path.stop() of src/unnamed/part_000 lines
146-159, combined with the parentPath step of line 169 (in a Babel tree the
parent of a JSXOpeningElement is always its JSXElement). -/
def locateChild (targetLine targetColumn : Int) :
    JSXChild → Option (JSXOpening × List JSXChild)
  | .text _ => none
  | .element op cs =>
    if matchesLoc targetLine targetColumn op then some (op, cs)
    else locateChildren targetLine targetColumn cs
/-- The list counterpart of locateChild, scanning children left to right. -/
def locateChildren (targetLine targetColumn : Int) :
    List JSXChild → Option (JSXOpening × List JSXChild)
  | [] => none
  | c :: rest =>
    match locateChild targetLine targetColumn c with
    | some r => some r
    | none => locateChildren targetLine targetColumn rest
end

/-- The mutation loop of src/unnamed/part_000 lines 172-182: walk the direct
children in order, overwrite the value of the first JSXText child with the
new value and stop; none when no direct JSXText child exists. -/
def replaceFirstText (newValue : Str) : List JSXChild → Option (List JSXChild)
  | [] => none
  | .text _ :: rest => some (.text newValue :: rest)
  | c :: rest => (replaceFirstText newValue rest).map (fun r => c :: r)

/-- Outcome of locating and mutating inside one subtree: no node matched the
position, the first matching node had no direct text child, or the rewritten
subtree. -/
inductive PatchRes (α : Type) where
  | notFound
  | noText
  | ok (result : α)

mutual
/-- Locate-and-mutate over one child, combining the visitor of
src/unnamed/part_000 lines 146-159 with the child loop of lines 167-188:
the first matching element (depth first, stopping at the first match) has
its first JSXText child replaced; a match without a direct text child is the
not-mutable outcome. -/
def patchChild (targetLine targetColumn : Int) (newValue : Str) :
    JSXChild → PatchRes JSXChild
  | .text _ => .notFound
  | .element op cs =>
    if matchesLoc targetLine targetColumn op then
      match replaceFirstText newValue cs with
      | some cs' => .ok (.element op cs')
      | none => .noText
    else
      match patchChildren targetLine targetColumn newValue cs with
      | .notFound => .notFound
      | .noText => .noText
      | .ok cs' => .ok (.element op cs')
/-- The list counterpart of patchChild. -/
def patchChildren (targetLine targetColumn : Int) (newValue : Str) :
    List JSXChild → PatchRes (List JSXChild)
  | [] => .notFound
  | c :: rest =>
    match patchChild targetLine targetColumn newValue c with
    | .ok c' => .ok (c' :: rest)
    | .noText => .noText
    | .notFound =>
      match patchChildren targetLine targetColumn newValue rest with
      | .notFound => .notFound
      | .noText => .noText
      | .ok rest' => .ok (c :: rest')
end

mutual
/-- All elements of a subtree in depth-first visiting order, each as its
opening paired with its children. -/
def elemsOfChild : JSXChild → List (JSXOpening × List JSXChild)
  | .text _ => []
  | .element op cs => (op, cs) :: elemsOfChildren cs
/-- The list counterpart of elemsOfChild. -/
def elemsOfChildren : List JSXChild → List (JSXOpening × List JSXChild)
  | [] => []
  | c :: rest => elemsOfChild c ++ elemsOfChildren rest
end

/-- Whether some element of the tree matches the target position. -/
def astHasMatch (targetLine targetColumn : Int) (ast : Ast) : Bool :=
  (elemsOfChildren ast).any (fun e => matchesLoc targetLine targetColumn e.1)

/-- Whether a child is a JSXText node (t.isJSXText). -/
def isTextChild : JSXChild → Bool
  | .text _ => true
  | .element _ _ => false

/-- Whether every character of the string is layout whitespace: the shape of
the JSXText separator nodes a parser records between elements laid out on
separate lines. -/
def isWhitespaceStr (s : Str) : Bool :=
  s.all isJsSpace

/-- The name of the injected identifier attribute. -/
def editIdAttrName : Str := "data-edit-id".toList

/-- The alreadyHasId test of src/unnamed/part_000 lines 64-66: some
attribute is a JSXAttribute whose name is data-edit-id. -/
def alreadyHasId (attrs : List JSXAttr) : Bool :=
  attrs.any fun a =>
    match a with
    | .jsxAttribute n _ => n == editIdAttrName
    | .spreadAttribute => false

/-- Stamping one opening element (src/unnamed/part_000 lines 62-80): a node
with a recorded location and no existing identifier attribute gets the
encoded identifier appended as a new attribute and counts one addition;
every other node is left exactly as it was. -/
def stampOpening (rel : Str) (op : JSXOpening) : JSXOpening × Nat :=
  match op.loc with
  | some l =>
    if alreadyHasId op.attributes then (op, 0)
    else
      (⟨some l, op.attributes ++
          [.jsxAttribute editIdAttrName (encodeEditId rel l.line (l.column + 1))]⟩, 1)
  | none => (op, 0)

mutual
/-- The stamping traversal over one child (the enter visitor of
src/unnamed/part_000 lines 58-86), returning the stamped child and the
number of attributes added below it. -/
def stampChild (rel : Str) : JSXChild → JSXChild × Nat
  | .text v => (.text v, 0)
  | .element op cs =>
    let so := stampOpening rel op
    let sc := stampChildren rel cs
    (.element so.1 sc.1, so.2 + sc.2)
/-- The list counterpart of stampChild. -/
def stampChildren (rel : Str) : List JSXChild → Ast × Nat
  | [] => ([], 0)
  | c :: rest =>
    let s1 := stampChild rel c
    let s2 := stampChildren rel rest
    (s1.1 :: s2.1, s1.2 + s2.2)
end

/-- The decision of src/unnamed/part_000 lines 88-99: when at least one
attribute was added the transform returns the regenerated tree, otherwise it
returns null, the unchanged signal, and the original content passes through
byte for byte. -/
def transformStamp (rel : Str) (ast : Ast) : Option Ast :=
  let s := stampChildren rel ast
  if s.2 > 0 then some s.1 else none

/-- The distinct terminal responses of the apply-edit handler, one
constructor per distinct status and message pair in src/unnamed/part_000:
400 missing editId or newValue (line 120), 400 invalid editId format (line
126), 400 invalid path (line 135), 404 target node not found (line 164),
409 failed to modify text child (line 187), 500 internal server error (line
203), and the 200 success payload with the file path and new content (line
197). -/
inductive Response where
  | missingFields
  | invalidEditId
  | invalidPath
  | targetNotFound
  | notMutable
  | internalError
  | success (filePath : Str) (newAst : Ast)

/-- Whether a response is the 200 success payload. -/
def isSuccessResp : Response → Bool
  | .success _ _ => true
  | _ => false

/-- File storage: absolute paths mapped to their parsed trees.  The handler
re-parses the stored text on every request and serializes the mutated tree
before writing, so storage is modelled at the tree level, the round-trip
between a tree and its text being the serialization contract of the
specification. -/
abbrev FS := List (Str × Ast)

/-- fs.readFile: look a path up in storage. -/
def fsLookup : FS → Str → Option Ast
  | [], _ => none
  | (q, a) :: rest, p => if q = p then some a else fsLookup rest p

/-- fs.writeFile over an existing file: replace the tree stored at the
path. -/
def fsWrite : FS → Str → Ast → FS
  | [], _, _ => []
  | (q, a) :: rest, p, a' =>
    if q = p then (q, a') :: fsWrite rest p a'
    else (q, a) :: fsWrite rest p a'

/-- The full observable outcome of one apply-edit request: the response
sent, the storage afterwards, and the paths read and written. -/
structure EditOutcome where
  response : Response
  fs : FS
  reads : List Str
  writes : List Str

/-- The apply-edit request handler of src/unnamed/part_000 lines 114-205.
The two request fields arrive as options (undefined is none); a missing
editId, an empty editId (JS falsiness) or a missing newValue is the 400
missing-fields exit; an undecodable identifier the 400 invalid-format exit;
the line 132 path condition the 400 invalid-path exit, before any
filesystem access; an unreadable file throws into the catch-all 500; then
the locate visitor and the child loop run over the freshly parsed tree, 404
when no node matches, 409 when the matched element has no direct text
child, and on success the mutated tree is written back and returned. -/
def applyEdit (root : Str) (fs : FS) (editId? newValue? : Option Str) : EditOutcome :=
  match editId?, newValue? with
  | some editId, some newValue =>
    if editId = [] then ⟨.missingFields, fs, [], []⟩
    else
      match parseEditId editId with
      | none => ⟨.invalidEditId, fs, [], []⟩
      | some pid =>
        let abs := resolvePath root pid.filePath
        if pathRejects root pid.filePath then ⟨.invalidPath, fs, [], []⟩
        else
          match fsLookup fs abs with
          | none => ⟨.internalError, fs, [abs], []⟩
          | some ast =>
            match patchChildren pid.line pid.column newValue ast with
            | .notFound => ⟨.targetNotFound, fs, [abs], []⟩
            | .noText => ⟨.notMutable, fs, [abs], []⟩
            | .ok ast' =>
              ⟨.success pid.filePath ast', fsWrite fs abs ast', [abs], [abs]⟩
  | _, _ => ⟨.missingFields, fs, [], []⟩

/-- A concrete project root used by the evaluation examples. -/
def root0 : Str := "/r".toList

/-- A concrete one-element file: a paragraph with text Hello whose opening
tag starts at line 3, zero-based column 4 (so its identifier column is 5). -/
def sampleAst : Ast := [.element ⟨some ⟨3, 4⟩, []⟩ [.text ("Hello".toList)]]

/-- Storage holding sampleAst at the resolved path of a.tsx under root0. -/
def sampleFs : FS := [(("/r/a.tsx".toList), sampleAst)]

/-- A concrete file whose root element wraps a nested element, with
whitespace-only JSXText separators around the nested child, as a parser
records a multi-line layout. -/
def wsAst : Ast :=
  [.element ⟨some ⟨1, 0⟩, []⟩
    [.text ("\n  ".toList),
     .element ⟨some ⟨2, 2⟩, []⟩ [.text ("Hi".toList)],
     .text ("\n".toList)]]

/-- Storage holding wsAst at the resolved path of b.tsx under root0. -/
def wsFs : FS := [(("/r/b.tsx".toList), wsAst)]

/-- sampleAst with its element already carrying the identifier attribute the
stamping pass would inject. -/
def stampedAst : Ast :=
  [.element ⟨some ⟨3, 4⟩, [.jsxAttribute editIdAttrName ("a.tsx:3:5".toList)]⟩
    [.text ("Hello".toList)]]

end PocEdit

namespace PocEdit

theorem splitOn_ne_nil (sep : Char) (s : Str) : splitOn sep s ≠ [] := by
  cases s with
  | nil => simp [splitOn]
  | cons c rest =>
    rw [splitOn]
    by_cases h : c = sep
    · simp [h]
    · simp only [if_neg h]
      cases hs : splitOn sep rest with
      | nil => simp
      | cons r rs => simp

theorem splitOn_append (sep : Char) (a b : Str) :
    splitOn sep (a ++ sep :: b) = splitOn sep a ++ splitOn sep b := by
  induction a with
  | nil =>
    cases hb : splitOn sep b with
    | nil => exact absurd hb (splitOn_ne_nil sep b)
    | cons r rs => simp [splitOn, hb]
  | cons c a ih =>
    by_cases h : c = sep
    · simp [splitOn, h, ih]
    · cases ha : splitOn sep a with
      | nil => exact absurd ha (splitOn_ne_nil sep a)
      | cons r rs => simp [splitOn, h, ih, ha]

theorem splitOn_of_not_mem (sep : Char) (s : Str) (h : sep ∉ s) :
    splitOn sep s = [s] := by
  induction s with
  | nil => rfl
  | cons c rest ih =>
    rw [splitOn]
    have hc : ¬ c = sep := fun hd => h (by simp [hd])
    have hr : sep ∉ rest := fun hd => h (by simp [hd])
    simp only [if_neg hc, ih hr]

theorem joinWith_cons (sep : Char) (c : Char) (r : Str) (rs : List Str) :
    joinWith sep ((c :: r) :: rs) = c :: joinWith sep (r :: rs) := by
  cases rs with
  | nil => rfl
  | cons x xs => rfl

theorem joinWith_nil_cons (sep : Char) (r : Str) (rs : List Str) :
    joinWith sep ([] :: r :: rs) = sep :: joinWith sep (r :: rs) := rfl

theorem joinWith_splitOn (sep : Char) (s : Str) :
    joinWith sep (splitOn sep s) = s := by
  induction s with
  | nil => rfl
  | cons c rest ih =>
    rw [splitOn]
    by_cases h : c = sep
    · simp only [if_pos h]
      cases hs : splitOn sep rest with
      | nil => exact absurd hs (splitOn_ne_nil sep rest)
      | cons r rs =>
        rw [hs] at ih
        rw [joinWith_nil_cons, ih, h]
    · simp only [if_neg h]
      cases hs : splitOn sep rest with
      | nil => exact absurd hs (splitOn_ne_nil sep rest)
      | cons r rs =>
        rw [hs] at ih
        rw [joinWith_cons, ih]

theorem digitChar_isDigit (n : Nat) (h : n < 10) : (digitChar n).isDigit = true := by
  interval_cases n <;> decide

theorem digitChar_toNat (n : Nat) (h : n < 10) : (digitChar n).toNat = 48 + n := by
  interval_cases n <;> decide

theorem natDigitsAux_isDigit (fuel n : Nat) (h : n < fuel) :
    ∀ c ∈ natDigitsAux fuel n, c.isDigit = true := by
  induction fuel generalizing n with
  | zero => omega
  | succ fuel ih =>
    intro c hc
    rw [natDigitsAux] at hc
    by_cases hn : n < 10
    · rw [if_pos hn] at hc
      simp at hc
      subst hc
      exact digitChar_isDigit n hn
    · rw [if_neg hn] at hc
      rcases List.mem_append.mp hc with hm | hm
      · exact ih (n / 10) (by omega) c hm
      · simp at hm
        subst hm
        exact digitChar_isDigit (n % 10) (by omega)

theorem natDigits_isDigit (n : Nat) : ∀ c ∈ natDigits n, c.isDigit = true :=
  natDigitsAux_isDigit (n + 1) n (Nat.lt_succ_self n)

theorem natDigits_ne_nil (n : Nat) : natDigits n ≠ [] := by
  rw [natDigits, natDigitsAux]
  by_cases hn : n < 10
  · simp [if_pos hn]
  · rw [if_neg hn]
    simp

theorem digitsVal_append_digit (a : Str) (c : Char) :
    digitsVal (a ++ [c]) = 10 * digitsVal a + (c.toNat - 48) := by
  rw [digitsVal, digitsVal, List.foldl_append]
  rfl

theorem digitsVal_natDigitsAux (fuel n : Nat) (h : n < fuel) :
    digitsVal (natDigitsAux fuel n) = n := by
  induction fuel generalizing n with
  | zero => omega
  | succ fuel ih =>
    rw [natDigitsAux]
    by_cases hn : n < 10
    · rw [if_pos hn]
      show digitsVal ([] ++ [digitChar n]) = n
      rw [digitsVal_append_digit, digitChar_toNat n hn]
      simp [digitsVal]
    · rw [if_neg hn, digitsVal_append_digit, ih (n / 10) (by omega),
        digitChar_toNat (n % 10) (by omega)]
      omega

theorem digitsVal_natDigits (n : Nat) : digitsVal (natDigits n) = n :=
  digitsVal_natDigitsAux (n + 1) n (Nat.lt_succ_self n)

theorem isDigit_not_special (c : Char) (h : c.isDigit = true) :
    isJsSpace c = false ∧ ¬ c = '-' ∧ ¬ c = '+' ∧ ¬ c = ':' := by
  refine ⟨?_, ?_, ?_, ?_⟩
  · by_contra hs
    simp only [Bool.not_eq_false, isJsSpace, Bool.or_eq_true, decide_eq_true_eq] at hs
    rcases hs with ((((h1 | h1) | h1) | h1) | h1) | h1 <;>
      (subst h1; exact absurd h (by decide))
  · intro hc; subst hc; exact absurd h (by decide)
  · intro hc; subst hc; exact absurd h (by decide)
  · intro hc; subst hc; exact absurd h (by decide)

theorem takeWhile_all {p : Char → Bool} (l : Str) (h : ∀ c ∈ l, p c = true) :
    l.takeWhile p = l := by
  induction l with
  | nil => rfl
  | cons c rest ih =>
    rw [List.takeWhile_cons, h c (by simp)]
    rw [ih (fun x hx => h x (by simp [hx]))]
    simp

theorem dropWhile_none {p : Char → Bool} (l : Str) (h : ∀ c ∈ l, p c = false) :
    l.dropWhile p = l := by
  cases l with
  | nil => rfl
  | cons c rest =>
    rw [List.dropWhile_cons, h c (by simp)]
    simp

theorem parseIntTen_natDigits (n : Nat) : parseIntTen (natDigits n) = some (n : Int) := by
  have hd := natDigits_isDigit n
  have hdrop : (natDigits n).dropWhile isJsSpace = natDigits n :=
    dropWhile_none _ (fun c hc => (isDigit_not_special c (hd c hc)).1)
  rw [parseIntTen]
  cases hn : natDigits n with
  | nil => exact absurd hn (natDigits_ne_nil n)
  | cons c rest =>
    rw [hn] at hdrop
    simp only [hn, hdrop]
    have hcd : c.isDigit = true := hd c (by rw [hn]; simp)
    rcases isDigit_not_special c hcd with ⟨_, hminus, hplus, _⟩
    rw [if_neg hminus, if_neg hplus, leadingNat]
    have hall : ∀ x ∈ c :: rest, x.isDigit = true := by
      intro x hx; apply hd; rw [hn]; exact hx
    rw [takeWhile_all (c :: rest) hall]
    simp only [reduceCtorEq, if_neg]
    rw [← hn, digitsVal_natDigits]
    simp

theorem natDigits_no_colon (n : Nat) : ':' ∉ natDigits n := by
  intro hc
  exact absurd rfl (isDigit_not_special ':' (natDigits_isDigit n ':' hc)).2.2.2

theorem strStarts_of_pre (n h : Str) (hp : n <+: h) : strStarts n h = true := by
  induction n generalizing h with
  | nil => rfl
  | cons a as ih =>
    obtain ⟨t, ht⟩ := hp
    cases h with
    | nil => simp at ht
    | cons b bs =>
      rw [List.cons_append] at ht
      injection ht with h1 h2
      rw [strStarts, h1]
      simp [ih bs ⟨t, h2⟩]

theorem strHas_of_within (n h : Str) (hi : n <:+: h) : strHas n h = true := by
  induction h with
  | nil =>
    rw [List.infix_nil] at hi
    subst hi
    rfl
  | cons c rest ih =>
    obtain ⟨s, t, hst⟩ := hi
    cases s with
    | nil =>
      rw [List.nil_append] at hst
      rw [strHas, strStarts_of_pre n (c :: rest) ⟨t, hst⟩]
      rfl
    | cons a s' =>
      rw [List.cons_append, List.cons_append] at hst
      injection hst with h1 h2
      rw [strHas, ih ⟨s', t, by rw [List.append_assoc] at h2 ⊢; exact h2⟩]
      simp

theorem splitOn_head_pre (sep : Char) (l r : Str) (rs : List Str)
    (h : splitOn sep l = r :: rs) : r <+: l := by
  induction l generalizing r rs with
  | nil =>
    rw [splitOn] at h
    injection h with h1 h2
    subst h1
    exact List.nil_prefix
  | cons c rest ih =>
    rw [splitOn] at h
    by_cases hc : c = sep
    · rw [if_pos hc] at h
      injection h with h1 h2
      subst h1
      exact List.nil_prefix
    · rw [if_neg hc] at h
      cases hs : splitOn sep rest with
      | nil => exact absurd hs (splitOn_ne_nil sep rest)
      | cons r' rs' =>
        rw [hs] at h
        injection h with h1 h2
        subst h1
        obtain ⟨t, ht⟩ := ih r' rs' hs
        exact ⟨t, by rw [List.cons_append, ht]⟩

theorem within_cons_of_within (c : Char) (n rest : Str) (h : n <:+: rest) :
    n <:+: c :: rest := by
  obtain ⟨s, t, hst⟩ := h
  exact ⟨c :: s, t, by rw [List.cons_append, List.cons_append, hst]⟩

theorem splitOn_part_within (sep : Char) (l s : Str) (h : s ∈ splitOn sep l) :
    s <:+: l := by
  induction l generalizing s with
  | nil =>
    rw [splitOn] at h
    simp at h
    subst h
    exact List.nil_infix
  | cons c rest ih =>
    rw [splitOn] at h
    by_cases hc : c = sep
    · rw [if_pos hc] at h
      rcases List.mem_cons.mp h with h1 | h1
      · subst h1; exact List.nil_infix
      · exact within_cons_of_within c s rest (ih s h1)
    · rw [if_neg hc] at h
      cases hs : splitOn sep rest with
      | nil => exact absurd hs (splitOn_ne_nil sep rest)
      | cons r rs =>
        rw [hs] at h
        rcases List.mem_cons.mp h with h1 | h1
        · subst h1
          obtain ⟨t, ht⟩ := splitOn_head_pre sep rest r rs hs
          exact ⟨[], t, by rw [List.nil_append, List.cons_append, ht]⟩
        · exact within_cons_of_within c s rest
            (ih s (by rw [hs]; exact List.mem_cons_of_mem r h1))

theorem hasParentSeg_strHas (p : Str) (h : hasParentSeg p = true) :
    strHas dotdotStr p = true := by
  rw [hasParentSeg, List.any_eq_true] at h
  obtain ⟨s, hmem, heq⟩ := h
  rw [beq_iff_eq] at heq
  subst heq
  exact strHas_of_within _ p (splitOn_part_within '/' p _ hmem)

theorem hasNodeModulesSeg_strHas (p : Str) (h : hasNodeModulesSeg p = true) :
    strHas nodeModulesStr p = true := by
  rw [hasNodeModulesSeg, List.any_eq_true] at h
  obtain ⟨s, hmem, heq⟩ := h
  rw [beq_iff_eq] at heq
  subst heq
  exact strHas_of_within _ p (splitOn_part_within '/' p _ hmem)

theorem parseEditId_nil : parseEditId [] = none := rfl

theorem parseEditId_some_ne_nil (editId : Str) (pid : ParsedId)
    (h : parseEditId editId = some pid) : editId ≠ [] := by
  intro he
  subst he
  rw [parseEditId_nil] at h
  cases h

theorem applyEdit_reached (root : Str) (fs : FS) (editId nv : Str) (pid : ParsedId)
    (ast : Ast)
    (hp : parseEditId editId = some pid)
    (hr : pathRejects root pid.filePath = false)
    (hf : fsLookup fs (resolvePath root pid.filePath) = some ast) :
    applyEdit root fs (some editId) (some nv) =
      match patchChildren pid.line pid.column nv ast with
      | .notFound => ⟨.targetNotFound, fs, [resolvePath root pid.filePath], []⟩
      | .noText => ⟨.notMutable, fs, [resolvePath root pid.filePath], []⟩
      | .ok ast' =>
        ⟨.success pid.filePath ast', fsWrite fs (resolvePath root pid.filePath) ast',
          [resolvePath root pid.filePath], [resolvePath root pid.filePath]⟩ := by
  have hne : editId ≠ [] := parseEditId_some_ne_nil editId pid hp
  simp only [applyEdit, if_neg hne, hp, hr, Bool.false_eq_true, if_false, hf]

mutual
theorem locateChild_none_iff (tl tc : Int) (c : JSXChild) :
    locateChild tl tc c = none ↔
      (elemsOfChild c).any (fun e => matchesLoc tl tc e.1) = false := by
  cases c with
  | text v => simp [locateChild, elemsOfChild]
  | element op cs =>
    by_cases hm : matchesLoc tl tc op
    · simp [locateChild, elemsOfChild, hm]
    · simp [locateChild, elemsOfChild, hm, locateChildren_none_iff tl tc cs]
theorem locateChildren_none_iff (tl tc : Int) (l : List JSXChild) :
    locateChildren tl tc l = none ↔
      (elemsOfChildren l).any (fun e => matchesLoc tl tc e.1) = false := by
  cases l with
  | nil => simp [locateChildren, elemsOfChildren]
  | cons c rest =>
    cases hc : locateChild tl tc c with
    | some r =>
      have hany : (elemsOfChild c).any (fun e => matchesLoc tl tc e.1) = true := by
        cases hh : (elemsOfChild c).any (fun e => matchesLoc tl tc e.1) with
        | false =>
          exact absurd ((locateChild_none_iff tl tc c).mpr hh) (by simp [hc])
        | true => rfl
      simp [locateChildren, hc, elemsOfChildren, List.any_append, hany]
    | none =>
      simp [locateChildren, hc, elemsOfChildren, List.any_append,
        (locateChild_none_iff tl tc c).mp hc, locateChildren_none_iff tl tc rest]
end

mutual
theorem patchChild_char (tl tc : Int) (nv : Str) (c : JSXChild) :
    (locateChild tl tc c = none → patchChild tl tc nv c = .notFound)
    ∧ (∀ op cs, locateChild tl tc c = some (op, cs) →
        (replaceFirstText nv cs = none → patchChild tl tc nv c = .noText)
        ∧ (∀ cs', replaceFirstText nv cs = some cs' →
            ∃ c', patchChild tl tc nv c = .ok c'
              ∧ locateChild tl tc c' = some (op, cs'))) := by
  cases c with
  | text v =>
    refine ⟨fun _ => rfl, fun op cs h => ?_⟩
    simp [locateChild] at h
  | element op0 cs0 =>
    by_cases hm : matchesLoc tl tc op0
    · refine ⟨fun hn => ?_, fun op cs h => ?_⟩
      · rw [locateChild, if_pos hm] at hn
        cases hn
      · rw [locateChild, if_pos hm] at h
        injection h with h'
        injection h' with h1 h2
        subst h1
        subst h2
        refine ⟨fun hrep => ?_, fun cs' hrep => ?_⟩
        · simp only [patchChild, if_pos hm, hrep]
        · exact ⟨.element op0 cs',
            by simp only [patchChild, if_pos hm, hrep],
            by simp only [locateChild, if_pos hm]⟩
    · have IH := patchChildren_char tl tc nv cs0
      refine ⟨fun hn => ?_, fun op cs h => ?_⟩
      · rw [locateChild, if_neg hm] at hn
        simp only [patchChild, if_neg hm, IH.1 hn]
      · rw [locateChild, if_neg hm] at h
        refine ⟨fun hrep => ?_, fun cs' hrep => ?_⟩
        · simp only [patchChild, if_neg hm, (IH.2 op cs h).1 hrep]
        · obtain ⟨l', hok, hloc'⟩ := (IH.2 op cs h).2 cs' hrep
          exact ⟨.element op0 l',
            by simp only [patchChild, if_neg hm, hok],
            by simp only [locateChild, if_neg hm]; exact hloc'⟩
theorem patchChildren_char (tl tc : Int) (nv : Str) (l : List JSXChild) :
    (locateChildren tl tc l = none → patchChildren tl tc nv l = .notFound)
    ∧ (∀ op cs, locateChildren tl tc l = some (op, cs) →
        (replaceFirstText nv cs = none → patchChildren tl tc nv l = .noText)
        ∧ (∀ cs', replaceFirstText nv cs = some cs' →
            ∃ l', patchChildren tl tc nv l = .ok l'
              ∧ locateChildren tl tc l' = some (op, cs'))) := by
  cases l with
  | nil =>
    refine ⟨fun _ => rfl, fun op cs h => ?_⟩
    simp [locateChildren] at h
  | cons c rest =>
    have IHc := patchChild_char tl tc nv c
    cases hc : locateChild tl tc c with
    | some r =>
      obtain ⟨opc, csc⟩ := r
      refine ⟨fun hn => ?_, fun op cs h => ?_⟩
      · simp only [locateChildren, hc] at hn
        cases hn
      · simp only [locateChildren, hc] at h
        injection h with h'
        injection h' with h1 h2
        subst h1
        subst h2
        refine ⟨fun hrep => ?_, fun cs' hrep => ?_⟩
        · simp only [patchChildren, (IHc.2 opc csc hc).1 hrep]
        · obtain ⟨c', hok, hloc'⟩ := (IHc.2 opc csc hc).2 cs' hrep
          exact ⟨c' :: rest,
            by simp only [patchChildren, hok],
            by simp only [locateChildren, hloc']⟩
    | none =>
      have IHr := patchChildren_char tl tc nv rest
      have hcp : patchChild tl tc nv c = .notFound := IHc.1 hc
      refine ⟨fun hn => ?_, fun op cs h => ?_⟩
      · simp only [locateChildren, hc] at hn
        simp only [patchChildren, hcp, IHr.1 hn]
      · simp only [locateChildren, hc] at h
        refine ⟨fun hrep => ?_, fun cs' hrep => ?_⟩
        · simp only [patchChildren, hcp, (IHr.2 op cs h).1 hrep]
        · obtain ⟨rest', hok, hloc'⟩ := (IHr.2 op cs h).2 cs' hrep
          exact ⟨c :: rest',
            by simp only [patchChildren, hcp, hok],
            by simp only [locateChildren, hc, hloc']⟩
end

theorem patchChildren_notFound_iff (tl tc : Int) (nv : Str) (l : List JSXChild) :
    patchChildren tl tc nv l = .notFound ↔ locateChildren tl tc l = none := by
  constructor
  · intro hp
    cases hl : locateChildren tl tc l with
    | none => rfl
    | some r =>
      obtain ⟨op, cs⟩ := r
      have h2 := (patchChildren_char tl tc nv l).2 op cs hl
      cases hrep : replaceFirstText nv cs with
      | none =>
        rw [h2.1 hrep] at hp
        cases hp
      | some cs' =>
        obtain ⟨l', hok, _⟩ := h2.2 cs' hrep
        rw [hok] at hp
        cases hp
  · exact (patchChildren_char tl tc nv l).1

theorem replaceFirstText_none_iff (nv : Str) (l : List JSXChild) :
    replaceFirstText nv l = none ↔ l.any isTextChild = false := by
  induction l with
  | nil => simp [replaceFirstText]
  | cons c rest ih =>
    cases c with
    | text v => simp [replaceFirstText, isTextChild]
    | element op cs =>
      simp [replaceFirstText, isTextChild, Option.map_eq_none', ih]

theorem replaceFirstText_of_any (nv : Str) (l : List JSXChild)
    (h : l.any isTextChild = true) :
    replaceFirstText nv l = some (l.set (l.findIdx isTextChild) (.text nv)) := by
  induction l with
  | nil => simp at h
  | cons c rest ih =>
    cases c with
    | text v =>
      simp [replaceFirstText, List.findIdx_cons, isTextChild]
    | element op cs =>
      have hrest : rest.any isTextChild = true := by
        simpa [isTextChild] using h
      simp [replaceFirstText, List.findIdx_cons, isTextChild, ih hrest]

theorem stampOpening_hasId (rel : Str) (op : JSXOpening)
    (h : alreadyHasId op.attributes = true) : stampOpening rel op = (op, 0) := by
  obtain ⟨lo, attrs⟩ := op
  cases lo with
  | none => rfl
  | some l => simp only [stampOpening] at h ⊢; simp [h]

mutual
theorem stampChild_unchanged (rel : Str) (c : JSXChild)
    (h : ∀ e ∈ elemsOfChild c, alreadyHasId e.1.attributes = true) :
    stampChild rel c = (c, 0) := by
  cases c with
  | text v => rfl
  | element op cs =>
    have hop : alreadyHasId op.attributes = true :=
      h (op, cs) (by simp [elemsOfChild])
    have hcs : stampChildren rel cs = (cs, 0) :=
      stampChildren_unchanged rel cs
        (fun e he => h e (by simp [elemsOfChild]; exact Or.inr he))
    simp [stampChild, hcs, stampOpening_hasId rel op hop]
theorem stampChildren_unchanged (rel : Str) (l : List JSXChild)
    (h : ∀ e ∈ elemsOfChildren l, alreadyHasId e.1.attributes = true) :
    stampChildren rel l = (l, 0) := by
  cases l with
  | nil => rfl
  | cons c rest =>
    have h1 := stampChild_unchanged rel c
      (fun e he => h e (by simp [elemsOfChildren]; exact Or.inl he))
    have h2 := stampChildren_unchanged rel rest
      (fun e he => h e (by simp [elemsOfChildren]; exact Or.inr he))
    simp [stampChildren, h1, h2]
end

mutual
theorem elems_stampChild (rel : Str) (c : JSXChild) :
    elemsOfChild (stampChild rel c).1
      = (elemsOfChild c).map
          (fun e => ((stampOpening rel e.1).1, (stampChildren rel e.2).1)) := by
  cases c with
  | text v => rfl
  | element op cs =>
    simp [stampChild, elemsOfChild, elems_stampChildren rel cs]
theorem elems_stampChildren (rel : Str) (l : List JSXChild) :
    elemsOfChildren (stampChildren rel l).1
      = (elemsOfChildren l).map
          (fun e => ((stampOpening rel e.1).1, (stampChildren rel e.2).1)) := by
  cases l with
  | nil => rfl
  | cons c rest =>
    simp [stampChildren, elemsOfChildren, elems_stampChild rel c,
      elems_stampChildren rel rest]
end

theorem astHasMatch_of_patch_found (tl tc : Int) (nv : Str) (l : List JSXChild)
    (h : patchChildren tl tc nv l ≠ .notFound) : astHasMatch tl tc l = true := by
  cases hh : astHasMatch tl tc l with
  | true => rfl
  | false =>
    rw [astHasMatch] at hh
    exact absurd ((patchChildren_char tl tc nv l).1
      ((locateChildren_none_iff tl tc l).mpr hh)) h

/-- Claim C2: decoding an encoded identifier recovers exactly the inputs.
For every non-empty file path p, even one containing colon characters, and
every line and column number, parseEditId applied to the colon join built by
encodeEditId returns exactly the path, line and column, because parsing
splits from the right, popping the column and then the line before rejoining
the remaining parts as the path. -/
theorem codec_roundtrip (p : Str) (L C : Nat) (hp : p ≠ []) :
    parseEditId (encodeEditId p L C) = some ⟨p, (L : Int), (C : Int)⟩ := by
  have h1 : encodeEditId p L C = p ++ ':' :: (natDigits L ++ ':' :: natDigits C) := by
    rw [encodeEditId]
    simp [List.append_assoc]
  have hsplit : splitOn ':' (encodeEditId p L C)
      = splitOn ':' p ++ [natDigits L, natDigits C] := by
    rw [h1, splitOn_append, splitOn_append,
      splitOn_of_not_mem ':' (natDigits L) (natDigits_no_colon L),
      splitOn_of_not_mem ':' (natDigits C) (natDigits_no_colon C)]
    rfl
  have hlen : ¬ ((splitOn ':' p ++ [natDigits L, natDigits C]).length < 3) := by
    have hpos : 0 < (splitOn ':' p).length :=
      List.length_pos.mpr (splitOn_ne_nil ':' p)
    simp only [List.length_append, List.length_cons, List.length_nil]
    omega
  have hrev : (splitOn ':' p ++ [natDigits L, natDigits C]).reverse
      = natDigits C :: natDigits L :: (splitOn ':' p).reverse := by
    simp
  simp only [parseEditId, hsplit, if_neg hlen, hrev, List.reverse_reverse,
    joinWith_splitOn, parseIntTen_natDigits, if_neg hp]

/-- Claim C8: parseEditId rejects every identifier with fewer than three
colon-separated parts, every identifier where parseInt fails on the popped
column or line part, and every identifier whose recovered path is empty; in
each case it returns none instead of a decoded triple. -/
theorem codec_rejects_invalid (editId : Str) :
    ((splitOn ':' editId).length < 3 → parseEditId editId = none)
    ∧ (∀ columnStr lineStr restRev,
        (splitOn ':' editId).reverse = columnStr :: lineStr :: restRev →
          ((parseIntTen lineStr = none ∨ parseIntTen columnStr = none) →
              parseEditId editId = none)
          ∧ (joinWith ':' restRev.reverse = [] → parseEditId editId = none)) := by
  constructor
  · intro hlen
    simp only [parseEditId, if_pos hlen]
  · intro columnStr lineStr restRev hrev
    by_cases hlen : (splitOn ':' editId).length < 3
    · exact ⟨fun _ => by simp only [parseEditId, if_pos hlen],
        fun _ => by simp only [parseEditId, if_pos hlen]⟩
    · constructor
      · intro hor
        rcases hor with hl | hc
        · simp only [parseEditId, if_neg hlen, hrev, hl]
        · cases hl : parseIntTen lineStr with
          | none => simp only [parseEditId, if_neg hlen, hrev, hl]
          | some v => simp only [parseEditId, if_neg hlen, hrev, hl, hc]
      · intro hpath
        cases hl : parseIntTen lineStr with
        | none => simp only [parseEditId, if_neg hlen, hrev, hl]
        | some v =>
          cases hc : parseIntTen columnStr with
          | none => simp only [parseEditId, if_neg hlen, hrev, hl, hc]
          | some w =>
            simp only [parseEditId, if_neg hlen, hrev, hl, hc, if_pos hpath]

/-- Claim C8 witness: an identifier with too few parts and one whose column
part starts with no digit are both rejected. -/
theorem codec_rejects_invalid_witness :
    parseEditId ("ab".toList) = none ∧ parseEditId ("a.tsx:x:y".toList) = none := by
  constructor
  · exact (codec_rejects_invalid ("ab".toList)).1 (by decide)
  · exact ((codec_rejects_invalid ("a.tsx:x:y".toList)).2 ("y".toList) ("x".toList)
      [("a.tsx".toList)] (by decide)).1 (Or.inl (by decide))

/-- Claim C2 witness: the roundtrip evaluated at the concrete identifier of
scenario A. -/
theorem codec_roundtrip_witness :
    ("a.tsx".toList ≠ ([] : Str))
    ∧ parseEditId (encodeEditId ("a.tsx".toList) 3 5)
        = some ⟨"a.tsx".toList, (3 : Int), (5 : Int)⟩ :=
  ⟨by decide, codec_roundtrip ("a.tsx".toList) 3 5 (by decide)⟩

/-- Claim C3 (amended): a patch request whose decoded path has a
parent-directory segment, or whose resolved absolute path does not have the
project root as a string prefix, or whose resolved path has a node_modules
segment, takes the invalid-path exit before any filesystem access: the
response is the 400 invalid-path error, nothing is read or written, and
storage is unchanged.  (The code tests string-prefix containment, not true
descendant containment; see the counterexample.) -/
theorem pathCheck_rejects (root : Str) (fs : FS) (editId nv : Str) (pid : ParsedId)
    (hp : parseEditId editId = some pid)
    (hrej : hasParentSeg pid.filePath = true
        ∨ strStarts root (resolvePath root pid.filePath) = false
        ∨ hasNodeModulesSeg (resolvePath root pid.filePath) = true) :
    applyEdit root fs (some editId) (some nv)
      = ⟨.invalidPath, fs, [], []⟩ := by
  have hne := parseEditId_some_ne_nil editId pid hp
  have hprej : pathRejects root pid.filePath = true := by
    rw [pathRejects]
    rcases hrej with h1 | h1 | h1
    · rw [hasParentSeg_strHas _ h1]
      simp
    · rw [h1]
      simp
    · rw [hasNodeModulesSeg_strHas _ h1]
      simp
  simp [applyEdit, hne, hp, hprej]

/-- Claim C3 counterexample: with project root /a/proj, the identifier path
/a/projectB/x.tsx resolves to an absolute path that is not a descendant of
the project root, yet the request is not rejected with the invalid-path
error: the string-prefix check passes it through and the handler attempts
the filesystem read (which here fails, giving the internal error instead),
so the claim as stated is false on the code. -/
theorem pathCheck_descendant_counterexample :
    isDescendantPath ("/a/proj".toList)
        (resolvePath ("/a/proj".toList) ("/a/projectB/x.tsx".toList)) = false
    ∧ (applyEdit ("/a/proj".toList) [] (some ("/a/projectB/x.tsx:1:1".toList))
        (some ("Hi".toList))).response = .internalError
    ∧ (applyEdit ("/a/proj".toList) [] (some ("/a/projectB/x.tsx:1:1".toList))
        (some ("Hi".toList))).reads
      = [resolvePath ("/a/proj".toList) ("/a/projectB/x.tsx".toList)] :=
  ⟨rfl, rfl, rfl⟩

/-- Claim C3 witness: an identifier whose path has a parent-directory
segment is rejected with the invalid-path response and no read or write. -/
theorem pathCheck_rejects_witness :
    applyEdit ("/a/proj".toList) [] (some ("../x.tsx:1:1".toList))
        (some ("Hi".toList))
      = ⟨.invalidPath, [], [], []⟩ :=
  pathCheck_rejects ("/a/proj".toList) [] ("../x.tsx:1:1".toList) ("Hi".toList)
    ⟨"../x.tsx".toList, 1, 1⟩ (by decide) (Or.inl (by decide))

/-- Claim C4: once the request reaches the freshly parsed file, the handler
responds with the 404 target-not-found error exactly when no element of the
tree has computed position equal to the decoded line and column (the
position being the recorded start line and the start column plus one), and
in that case storage is untouched and nothing is written.  The locate step
is the depth-first visitor that stops at the first match. -/
theorem patch_targetNotFound_iff (root : Str) (fs : FS) (editId nv : Str)
    (pid : ParsedId) (ast : Ast)
    (hp : parseEditId editId = some pid)
    (hr : pathRejects root pid.filePath = false)
    (hf : fsLookup fs (resolvePath root pid.filePath) = some ast) :
    ((applyEdit root fs (some editId) (some nv)).response = .targetNotFound
        ↔ astHasMatch pid.line pid.column ast = false)
    ∧ ((applyEdit root fs (some editId) (some nv)).response = .targetNotFound →
        (applyEdit root fs (some editId) (some nv)).fs = fs
        ∧ (applyEdit root fs (some editId) (some nv)).writes = []) := by
  have hre := applyEdit_reached root fs editId nv pid ast hp hr hf
  cases hpc : patchChildren pid.line pid.column nv ast with
  | notFound =>
    rw [hpc] at hre
    have hmatch : astHasMatch pid.line pid.column ast = false := by
      rw [astHasMatch]
      exact (locateChildren_none_iff _ _ _).mp
        ((patchChildren_notFound_iff _ _ _ _).mp hpc)
    rw [hre]
    exact ⟨by simp [hmatch], fun _ => ⟨rfl, rfl⟩⟩
  | noText =>
    rw [hpc] at hre
    have hmatch : astHasMatch pid.line pid.column ast = true :=
      astHasMatch_of_patch_found _ _ nv _ (by rw [hpc]; intro hx; cases hx)
    rw [hre]
    refine ⟨by simp [hmatch], fun h => ?_⟩
    simp at h
  | ok ast' =>
    rw [hpc] at hre
    have hmatch : astHasMatch pid.line pid.column ast = true :=
      astHasMatch_of_patch_found _ _ nv _ (by rw [hpc]; intro hx; cases hx)
    rw [hre]
    refine ⟨by simp [hmatch], fun h => ?_⟩
    simp at h

/-- Claim C4 witness: a stale identifier pointing at line 9, column 9 of the
sample file matches no element, yields the 404 response, and leaves storage
as it was. -/
theorem patch_targetNotFound_iff_witness :
    (applyEdit root0 sampleFs (some ("a.tsx:9:9".toList))
        (some ("Hi".toList))).response = .targetNotFound
    ∧ (applyEdit root0 sampleFs (some ("a.tsx:9:9".toList))
        (some ("Hi".toList))).fs = sampleFs := by
  have h := patch_targetNotFound_iff root0 sampleFs ("a.tsx:9:9".toList)
    ("Hi".toList) ⟨"a.tsx".toList, 9, 9⟩ sampleAst rfl rfl rfl
  have hresp := h.1.mpr (by decide)
  exact ⟨hresp, (h.2 hresp).1⟩

/-- Claim C5: when the locate step finds an element, the handler responds
with the 409 not-mutable error, leaving storage untouched, exactly if the
element has no JSXText node among its direct children; and when it has one,
the child at the first text index (List.findIdx isTextChild) is the one
overwritten with the new value, as locating the same position in the written
tree shows. -/
theorem patch_firstTextChild (root : Str) (fs : FS) (editId nv : Str)
    (pid : ParsedId) (ast : Ast) (op : JSXOpening) (cs : List JSXChild)
    (hp : parseEditId editId = some pid)
    (hr : pathRejects root pid.filePath = false)
    (hf : fsLookup fs (resolvePath root pid.filePath) = some ast)
    (hloc : locateChildren pid.line pid.column ast = some (op, cs)) :
    (cs.any isTextChild = false →
        (applyEdit root fs (some editId) (some nv)).response = .notMutable
        ∧ (applyEdit root fs (some editId) (some nv)).fs = fs
        ∧ (applyEdit root fs (some editId) (some nv)).writes = [])
    ∧ (cs.any isTextChild = true →
        ∃ ast', patchChildren pid.line pid.column nv ast = .ok ast'
          ∧ (applyEdit root fs (some editId) (some nv)).response
              = .success pid.filePath ast'
          ∧ (applyEdit root fs (some editId) (some nv)).fs
              = fsWrite fs (resolvePath root pid.filePath) ast'
          ∧ locateChildren pid.line pid.column ast'
              = some (op, cs.set (cs.findIdx isTextChild) (.text nv))) := by
  have hre := applyEdit_reached root fs editId nv pid ast hp hr hf
  have hchar := (patchChildren_char pid.line pid.column nv ast).2 op cs hloc
  constructor
  · intro hno
    have hpc := hchar.1 ((replaceFirstText_none_iff nv cs).mpr hno)
    rw [hpc] at hre
    rw [hre]
    exact ⟨rfl, rfl, rfl⟩
  · intro hyes
    obtain ⟨ast', hok, hloc'⟩ := hchar.2 _ (replaceFirstText_of_any nv cs hyes)
    rw [hok] at hre
    refine ⟨ast', hok, ?_, ?_, hloc'⟩
    · rw [hre]
    · rw [hre]

/-- Claim C5 witness: patching the sample file succeeds and rewrites exactly
the Hello text child of the matched element. -/
theorem patch_firstTextChild_witness :
    (applyEdit root0 sampleFs (some ("a.tsx:3:5".toList))
        (some ("Hi".toList))).response
      = .success ("a.tsx".toList)
          [.element ⟨some ⟨3, 4⟩, []⟩ [.text ("Hi".toList)]] := by
  obtain ⟨ast', hok, hresp, -, -⟩ :=
    (patch_firstTextChild root0 sampleFs ("a.tsx:3:5".toList) ("Hi".toList)
      ⟨"a.tsx".toList, 3, 5⟩ sampleAst ⟨some ⟨3, 4⟩, []⟩ [.text ("Hello".toList)]
      rfl rfl rfl rfl).2 rfl
  have hconc : patchChildren 3 5 ("Hi".toList) sampleAst
      = .ok [.element ⟨some ⟨3, 4⟩, []⟩ [.text ("Hi".toList)]] := rfl
  have h' := hok.symm.trans hconc
  injection h' with h''
  rw [hresp, h'']

/-- Claim C9: an empty newValue is not a missing field and not a no-op: the
request proceeds, succeeds, and the first text child of the matched element
is afterwards present with the empty string as its value. -/
theorem patch_emptyValue (root : Str) (fs : FS) (editId : Str)
    (pid : ParsedId) (ast : Ast) (op : JSXOpening) (cs : List JSXChild)
    (hp : parseEditId editId = some pid)
    (hr : pathRejects root pid.filePath = false)
    (hf : fsLookup fs (resolvePath root pid.filePath) = some ast)
    (hloc : locateChildren pid.line pid.column ast = some (op, cs))
    (htext : cs.any isTextChild = true) :
    (applyEdit root fs (some editId) (some [])).response ≠ .missingFields
    ∧ ∃ ast', patchChildren pid.line pid.column [] ast = .ok ast'
        ∧ (applyEdit root fs (some editId) (some [])).response
            = .success pid.filePath ast'
        ∧ locateChildren pid.line pid.column ast'
            = some (op, cs.set (cs.findIdx isTextChild) (.text []))
        ∧ (cs.set (cs.findIdx isTextChild) (.text []))[cs.findIdx isTextChild]?
            = some (.text []) := by
  have hre := applyEdit_reached root fs editId [] pid ast hp hr hf
  have hchar := (patchChildren_char pid.line pid.column [] ast).2 op cs hloc
  obtain ⟨ast', hok, hloc'⟩ := hchar.2 _ (replaceFirstText_of_any [] cs htext)
  rw [hok] at hre
  have hlt : cs.findIdx isTextChild < cs.length := by
    apply List.findIdx_lt_length_of_exists
    obtain ⟨x, hx, hpx⟩ := List.any_eq_true.mp htext
    exact ⟨x, hx, hpx⟩
  refine ⟨?_, ast', hok, ?_, hloc', ?_⟩
  · rw [hre]
    simp
  · rw [hre]
  · exact List.getElem?_set_self hlt

/-- Claim C9 witness: the empty-string patch of scenario B leaves the text
child present but empty. -/
theorem patch_emptyValue_witness :
    (applyEdit root0 sampleFs (some ("a.tsx:3:5".toList)) (some [])).response
      = .success ("a.tsx".toList)
          [.element ⟨some ⟨3, 4⟩, []⟩ [.text []]] := by
  obtain ⟨-, ast', hok, hresp, -, -⟩ :=
    patch_emptyValue root0 sampleFs ("a.tsx:3:5".toList)
      ⟨"a.tsx".toList, 3, 5⟩ sampleAst ⟨some ⟨3, 4⟩, []⟩ [.text ("Hello".toList)]
      rfl rfl rfl rfl rfl
  have hconc : patchChildren 3 5 ([] : Str) sampleAst
      = .ok [.element ⟨some ⟨3, 4⟩, []⟩ [.text []]] := rfl
  have h' := hok.symm.trans hconc
  injection h' with h''
  rw [hresp, h'']

/-- Claim C10: a whitespace-only JSXText among the matched element's direct
children counts as its first text child, so an element wrapping only nested
elements across several lines is not rejected as not-mutable: its leading
whitespace text node is overwritten with the new value. -/
theorem patch_whitespaceText (root : Str) (fs : FS) (editId nv : Str)
    (pid : ParsedId) (ast : Ast) (op : JSXOpening) (ws : Str)
    (rest : List JSXChild)
    (hp : parseEditId editId = some pid)
    (hr : pathRejects root pid.filePath = false)
    (hf : fsLookup fs (resolvePath root pid.filePath) = some ast)
    (hloc : locateChildren pid.line pid.column ast = some (op, .text ws :: rest))
    (_hw : isWhitespaceStr ws = true) :
    (applyEdit root fs (some editId) (some nv)).response ≠ .notMutable
    ∧ ∃ ast', patchChildren pid.line pid.column nv ast = .ok ast'
        ∧ (applyEdit root fs (some editId) (some nv)).response
            = .success pid.filePath ast'
        ∧ locateChildren pid.line pid.column ast'
            = some (op, .text nv :: rest) := by
  have hre := applyEdit_reached root fs editId nv pid ast hp hr hf
  have hchar := (patchChildren_char pid.line pid.column nv ast).2 op
    (.text ws :: rest) hloc
  obtain ⟨ast', hok, hloc'⟩ := hchar.2 (.text nv :: rest) rfl
  rw [hok] at hre
  refine ⟨?_, ast', hok, ?_, hloc'⟩
  · rw [hre]
    simp
  · rw [hre]

/-- Claim C10 witness: the multi-line wrapper element of wsAst, whose direct
children are whitespace text nodes around a nested element, is patched
successfully, its leading whitespace text being replaced. -/
theorem patch_whitespaceText_witness :
    isWhitespaceStr ("\n  ".toList) = true
    ∧ (applyEdit root0 wsFs (some ("b.tsx:1:1".toList))
        (some ("New".toList))).response
      = .success ("b.tsx".toList)
          [.element ⟨some ⟨1, 0⟩, []⟩
            [.text ("New".toList),
             .element ⟨some ⟨2, 2⟩, []⟩ [.text ("Hi".toList)],
             .text ("\n".toList)]] := by
  refine ⟨by decide, ?_⟩
  obtain ⟨-, ast', hok, hresp, -⟩ :=
    patch_whitespaceText root0 wsFs ("b.tsx:1:1".toList) ("New".toList)
      ⟨"b.tsx".toList, 1, 1⟩ wsAst ⟨some ⟨1, 0⟩, []⟩ ("\n  ".toList)
      [.element ⟨some ⟨2, 2⟩, []⟩ [.text ("Hi".toList)], .text ("\n".toList)]
      rfl rfl rfl rfl (by decide)
  have hconc : patchChildren 1 1 ("New".toList) wsAst
      = .ok [.element ⟨some ⟨1, 0⟩, []⟩
          [.text ("New".toList),
           .element ⟨some ⟨2, 2⟩, []⟩ [.text ("Hi".toList)],
           .text ("\n".toList)]] := rfl
  have h' := hok.symm.trans hconc
  injection h' with h''
  rw [hresp, h'']

/-- Claim C6: stamping is idempotent and never duplicates.  When every
element of the input already carries the identifier attribute, the transform
returns the unchanged signal and the stamped tree is the input itself; and
in general the stamped tree is the element-wise image of stampOpening, which
leaves any node already carrying the attribute exactly as it was, so a
second identifier attribute is never added. -/
theorem stamp_idempotent_no_duplicate (rel : Str) (ast : Ast) :
    ((∀ e ∈ elemsOfChildren ast, alreadyHasId e.1.attributes = true) →
        transformStamp rel ast = none ∧ (stampChildren rel ast).1 = ast)
    ∧ elemsOfChildren (stampChildren rel ast).1
        = (elemsOfChildren ast).map
            (fun e => ((stampOpening rel e.1).1, (stampChildren rel e.2).1))
    ∧ (∀ op, alreadyHasId op.attributes = true → stampOpening rel op = (op, 0)) := by
  refine ⟨?_, elems_stampChildren rel ast, fun op h => stampOpening_hasId rel op h⟩
  intro h
  have hs := stampChildren_unchanged rel ast h
  constructor
  · simp only [transformStamp, hs]
    simp
  · rw [hs]

/-- Claim C6 witness: re-stamping the already-stamped sample file returns
the unchanged signal and the identical tree. -/
theorem stamp_idempotent_no_duplicate_witness :
    transformStamp ("a.tsx".toList) stampedAst = none
    ∧ (stampChildren ("a.tsx".toList) stampedAst).1 = stampedAst :=
  (stamp_idempotent_no_duplicate ("a.tsx".toList) stampedAst).1 (by decide)

/-- Claim C7: every apply-edit outcome that is not the success response
leaves storage exactly as it was and writes nothing; each failure exit is a
distinct response constructor, so the caller learns which category
occurred. -/
theorem applyEdit_failure_frame (root : Str) (fs : FS) (editId? newValue? : Option Str)
    (h : isSuccessResp (applyEdit root fs editId? newValue?).response = false) :
    (applyEdit root fs editId? newValue?).fs = fs
    ∧ (applyEdit root fs editId? newValue?).writes = [] := by
  cases editId? with
  | none => exact ⟨rfl, rfl⟩
  | some e =>
    cases newValue? with
    | none => exact ⟨rfl, rfl⟩
    | some v =>
      by_cases he : e = []
      · simp [applyEdit, he]
      · cases hp : parseEditId e with
        | none => simp [applyEdit, he, hp]
        | some pid =>
          by_cases hr : pathRejects root pid.filePath = true
          · simp [applyEdit, he, hp, hr]
          · cases hf : fsLookup fs (resolvePath root pid.filePath) with
            | none => simp [applyEdit, he, hp, hr, hf]
            | some ast =>
              cases hpc : patchChildren pid.line pid.column v ast with
              | notFound => simp [applyEdit, he, hp, hr, hf, hpc]
              | noText => simp [applyEdit, he, hp, hr, hf, hpc]
              | ok ast' =>
                rw [show (applyEdit root fs (some e) (some v))
                    = ⟨.success pid.filePath ast',
                        fsWrite fs (resolvePath root pid.filePath) ast',
                        [resolvePath root pid.filePath],
                        [resolvePath root pid.filePath]⟩ from by
                  simp [applyEdit, he, hp, hr, hf, hpc]] at h
                simp [isSuccessResp] at h

/-- Claim C7 witness: a request with both fields missing fails with the
missing-fields response and storage is untouched. -/
theorem applyEdit_failure_frame_witness :
    isSuccessResp (applyEdit root0 [] none none).response = false
    ∧ (applyEdit root0 [] none none).fs = []
    ∧ (applyEdit root0 [] none none).writes = [] :=
  ⟨rfl, applyEdit_failure_frame root0 [] none none rfl⟩

end PocEdit
